import Mathlib

/-!
Verification of the genco code-generation library (JavaScript backend and
quasi-quoting macro entry points) against its natural-language specification.

Rust strings are embedded as `List Char` so that every operation is
kernel-computable.  The token-stream core (`Tokens`, the formatter, the
walker of imports) is not part of the given sources; those parts are modelled
from the specification, as marked in the doc comments.  Everything taken
from `src/src/lang/js.rs` and `src/genco-macros/src/lib.rs` mirrors the
source structure directly.
-/

namespace Genco

/-- Rust `String` / `ItemStr`, embedded as a list of characters. -/
abbrev Str := List Char

/-- Helper turning a Lean string literal into the `Str` embedding. -/
def str (s : String) : Str := s.data

/-- Lexicographic strict order on strings, mirroring Rust's `Ord for String`
(byte-wise lexicographic comparison; identical to char-wise comparison on the
ASCII data appearing in this development). -/
def strLtb : Str → Str → Bool
  | [], [] => false
  | [], _ :: _ => true
  | _ :: _, [] => false
  | a :: as, b :: bs => if a < b then true else if a = b then strLtb as bs else false

/-- Lexicographic strict order on pairs of strings, mirroring Rust's
`Ord for (String, String)` used by the `BTreeSet` of wildcard imports. -/
def pairLtb (p q : Str × Str) : Bool :=
  if p.1 = q.1 then strLtb p.2 q.2 else strLtb p.1 q.1

/-- From `src/src/lang/js.rs` lines 53-62: an imported item in JavaScript.
The Rust field `alias` is renamed `aliasName` (`alias` is reserved in Lean). -/
structure JsType where
  module : Option Str
  name : Str
  aliasName : Option Str
  deriving DecidableEq, Repr

/-- From `src/src/lang/js.rs` line 50: module separator `"."`. -/
def SEP : Str := str "."

/-- From `src/src/lang/js.rs` line 51: path separator `"/"`. -/
def PATH_SEP : Str := str "/"

/-- From `src/src/lang/js.rs` lines 74-84: `Display for Type` writes the
alias followed by `SEP` when present, then the name. -/
def typeDisplay (t : JsType) : Str :=
  (match t.aliasName with
   | some a => a ++ SEP
   | none => []) ++ t.name

/-- From `src/src/lang/js.rs` lines 91-93: `as_import` returns `Some(self)`
for every JavaScript `Type`. -/
def asImport (t : JsType) : Option JsType := some t

/-- From `src/src/lang/js.rs` lines 242-252: `imported(module, name)`. -/
def imported (module name : Str) : JsType :=
  ⟨some module, name, none⟩

/-- From `src/src/lang/js.rs` lines 265-274: `local(name)`. -/
def localType (name : Str) : JsType :=
  ⟨none, name, none⟩

/-- From `src/src/lang/js.rs` lines 64-72: `Type::alias` sets the alias field. -/
def withAlias (t : JsType) (a : Str) : JsType :=
  ⟨t.module, t.name, some a⟩

/-- Modelled from the spec (section 3 "Item", the Tokens core is not among the
given sources): one element of a token stream.  `quotedStr` is the quoted-string
item produced by `.quoted()`, rendered through the backend's `quote_string`. -/
inductive Item where
  | literal (s : Str)
  | lang (t : JsType)
  | quotedStr (s : Str)
  | space
  | push
  | line
  | indent
  | unindent
  deriving DecidableEq, Repr

/-- Modelled from the spec (section 4.C "Rendering state"): the
pending-whitespace flag, ordered nothing < space < push < line. -/
inductive Pend where
  | nothing
  | space
  | push
  | line
  deriving DecidableEq, Repr

/-- Numeric rank of a pending-whitespace flag (spec section 4.C: ordering
Space < Push < Line for the upgrade rule). -/
def Pend.rank : Pend → Nat
  | .nothing => 0
  | .space => 1
  | .push => 2
  | .line => 3

/-- Modelled from the spec (section 4.C rule 3): whitespace intents upgrade
the pending flag to the maximum of current and requested, never downgrade. -/
def pendUp (a b : Pend) : Pend :=
  if a.rank ≤ b.rank then b else a

/-- Modelled from the spec (section 6.3): indentation is spaces with a default
step of 4 columns per level. -/
def indentStr (n : Nat) : Str :=
  (List.replicate n (str "    ")).flatten

/-- Modelled from the spec (section 4.C rule 2): formatter state with output
text, current column, current indent level and the pending-whitespace flag. -/
structure FmtState where
  out : Str
  col : Nat
  level : Nat
  pend : Pend

/-- Modelled from the spec (section 4.C rule 3, emission per `Literal(t)`):
if pending is Line and the column is positive, emit two newlines plus indent;
if Push, a newline plus indent; if Space and the column is positive, one
space; then write the text.  Writing empty text is a no-op (spec section 3:
appending an empty literal is a no-op). -/
def writeText (st : FmtState) (t : Str) : FmtState :=
  if t = [] then st
  else
    match st.pend with
    | .nothing => ⟨st.out ++ t, st.col + t.length, st.level, .nothing⟩
    | .space =>
      if 0 < st.col then ⟨st.out ++ str " " ++ t, st.col + 1 + t.length, st.level, .nothing⟩
      else ⟨st.out ++ t, st.col + t.length, st.level, .nothing⟩
    | .push => ⟨st.out ++ str "\n" ++ indentStr st.level ++ t,
        (indentStr st.level).length + t.length, st.level, .nothing⟩
    | .line =>
      if 0 < st.col then ⟨st.out ++ str "\n" ++ str "\n" ++ indentStr st.level ++ t,
        (indentStr st.level).length + t.length, st.level, .nothing⟩
      else ⟨st.out ++ t, st.col + t.length, st.level, .nothing⟩

/-- From `src/src/lang/js.rs` lines 178-198: the character escapes performed
by `JavaScript::quote_string`, one escape per matched character; every other
character is copied through unchanged.  The sequential `if`-chain mirrors the
Rust `match` arms in source order.  `Char.ofNat 39` is the single-quote
character and `Char.ofNat 7` / `Char.ofNat 20` are U+0007 / U+0014 as written
in the source. -/
def jsEscapeChar (c : Char) : Str :=
  if c = '\t' then str "\\t"
  else if c = Char.ofNat 7 then str "\\b"
  else if c = '\n' then str "\\n"
  else if c = '\r' then str "\\r"
  else if c = Char.ofNat 20 then str "\\f"
  else if c = Char.ofNat 39 then ['\\', Char.ofNat 39]
  else if c = '"' then str "\\\""
  else if c = '\\' then str "\\\\"
  else [c]

/-- From `src/src/lang/js.rs` lines 178-198: `quote_string` writes `"`, folds
over the input characters writing each one's escape, then writes a closing `"`. -/
def jsQuoteString (input : Str) : Str :=
  (input.foldl (fun acc c => acc ++ jsEscapeChar c) (str "\"")) ++ str "\""

/-- Modelled from the spec (sections 4.C and 4.D): render one item into the
formatter state.  Literals write their text; language items write the
backend's `format` output (`Display for Type`); quoted items write the
backend's `quote_string` output; whitespace items upgrade the pending flag;
indent items change the level immediately. -/
def runItem (st : FmtState) (i : Item) : FmtState :=
  match i with
  | .literal t => writeText st t
  | .lang t => writeText st (typeDisplay t)
  | .quotedStr s => writeText st (jsQuoteString s)
  | .space => ⟨st.out, st.col, st.level, pendUp st.pend .space⟩
  | .push => ⟨st.out, st.col, st.level, pendUp st.pend .push⟩
  | .line => ⟨st.out, st.col, st.level, pendUp st.pend .line⟩
  | .indent => ⟨st.out, st.col, st.level + 1, st.pend⟩
  | .unindent => ⟨st.out, st.col, st.level - 1, st.pend⟩

/-- Modelled from the spec (section 4.C): format a stream at a starting
indentation level; trailing pending whitespace is discarded (rule 4). -/
def formatTokens (items : List Item) (level : Nat) : Str :=
  (items.foldl runItem ⟨[], 0, level, Pend.nothing⟩).out

/-- Splitting on a separator character, the `List Char` counterpart of Rust's
`str::split` / the line splitting of `to_file_vec`. -/
def splitOnChar (sep : Char) : Str → List Str
  | [] => [[]]
  | c :: rest =>
    if c = sep then [] :: splitOnChar sep rest
    else
      match splitOnChar sep rest with
      | [] => [[c]]
      | l :: ls => (c :: l) :: ls

/-- Joining with a separator character, the `List Char` counterpart of Rust's
`Vec::join`. -/
def intercalateChar (sep : Char) : List Str → Str
  | [] => []
  | p :: ps => p ++ (ps.flatMap fun q => sep :: q)

/-- From `src/src/lang/js.rs` lines 100-104: `module_to_path` splits the
module on `SEP`, joins the parts with `PATH_SEP` and appends `".js"`. -/
def moduleToPath (path : Str) : Str :=
  intercalateChar '/' (splitOnChar '.' path) ++ str ".js"

/-- From `src/src/lang/js.rs` lines 133-155: the tokens built for one
`BTreeMap` entry of named imports: `import {`, the names separated by `", "`,
`} from `, the quoted module path, `;`. -/
def namedImportLine (module : Str) (names : List Str) : List Item :=
  [Item.literal (str "import \x7b")]
  ++ (match names with
      | [] => []
      | n :: rest => Item.literal n :: rest.flatMap fun x => [Item.literal (str ", "), Item.literal x])
  ++ [Item.literal (str "\x7d from "), Item.quotedStr (moduleToPath module), Item.literal (str ";")]

/-- From `src/src/lang/js.rs` lines 157-168: the tokens built for one
wildcard import: `import * as `, the alias, ` from `, the quoted module
path, `;`. -/
def wildcardImportLine (module a : Str) : List Item :=
  [Item.literal (str "import * as "), Item.literal a, Item.literal (str " from "),
   Item.quotedStr (moduleToPath module), Item.literal (str ";")]

/-- The `BTreeMap<ItemStr, Tokens>` of `JavaScript::imports` (`js.rs` line
110), embedded as a key-sorted association list; `or_insert_with(Tokens::new)`
followed by `append(name)` appends the walked name at the end of the entry's
token list, so per-module names keep walk order and duplicates. -/
def insertNamed : List (Str × List Str) → Str → Str → List (Str × List Str)
  | [], m, n => [(m, [n])]
  | (k, vs) :: rest, m, n =>
    if strLtb m k then (m, [n]) :: (k, vs) :: rest
    else if m = k then (k, vs ++ [n]) :: rest
    else (k, vs) :: insertNamed rest m n

/-- The `BTreeSet<(ItemStr, ItemStr)>` of `JavaScript::imports` (`js.rs` line
111), embedded as a sorted duplicate-free list of (module, alias) pairs. -/
def insertWildcard : List (Str × Str) → Str × Str → List (Str × Str)
  | [], p => [p]
  | q :: rest, p =>
    if pairLtb p q then p :: q :: rest
    else if p = q then q :: rest
    else q :: insertWildcard rest p

/-- From `src/src/lang/js.rs` lines 113-125: classify one walked import.
`(Some(module), None)` goes to the named-import map, `(Some(module),
Some(alias))` to the wildcard set, anything else is dropped. -/
def collectStep (acc : List (Str × List Str) × List (Str × Str)) (imp : JsType) :
    List (Str × List Str) × List (Str × Str) :=
  match imp.module, imp.aliasName with
  | some m, none => (insertNamed acc.1 m imp.name, acc.2)
  | some m, some a => (acc.1, insertWildcard acc.2 (m, a))
  | _, _ => acc

/-- From `src/src/lang/js.rs` lines 110-125: fold all walked imports into the
named-import map and the wildcard set. -/
def collectImports (l : List JsType) : List (Str × List Str) × List (Str × Str) :=
  l.foldl collectStep ([], [])

/-- From `src/src/lang/js.rs` lines 127-171: after collecting, `imports`
early-returns `None` when the wildcard set is empty; otherwise it renders one
line per named-import map entry followed by one line per wildcard entry, each
line followed by a push. -/
def jsImportsRender (acc : List (Str × List Str) × List (Str × Str)) : Option (List Item) :=
  if acc.2 = [] then none
  else some
    ((acc.1.flatMap fun p => namedImportLine p.1 p.2 ++ [Item.push])
      ++ (acc.2.flatMap fun p => wildcardImportLine p.1 p.2 ++ [Item.push]))

/-- From `src/src/lang/js.rs` lines 107-171: `JavaScript::imports` on the
walked import list. -/
def jsImportsOf (l : List JsType) : Option (List Item) :=
  jsImportsRender (collectImports l)

/-- Modelled from the spec (sections 3 and 4.B, `walk_imports`): walking a
stream yields the language items that classify themselves as imports via
`as_import`, in stream order. -/
def walkImports (tokens : List Item) : List JsType :=
  tokens.filterMap fun i =>
    match i with
    | .lang t => asImport t
    | _ => none

/-- From `src/src/lang/js.rs` lines 107-171: `JavaScript::imports` on a
token stream. -/
def jsImports (tokens : List Item) : Option (List Item) :=
  jsImportsOf (walkImports tokens)

/-- From `src/src/lang/js.rs` lines 200-215: `write_file` prepends the import
preamble (when `imports` returns `Some`) followed by `push_line`, then the
body.  `push_line` is modelled from the spec (section 6.3: the preamble is
separated from the body by one blank line) as the blank-line intent. -/
def writeFileTokens (tokens : List Item) : List Item :=
  match jsImports tokens with
  | some imp => imp ++ [Item.line] ++ tokens
  | none => tokens

/-- Modelled from the spec (section 6.1): `to_string` renders the stream
without the file preamble. -/
def jsToString (items : List Item) : Str :=
  formatTokens items 0

/-- Modelled from the spec (sections 6.1 and 6.3): `to_file_vec` renders via
the backend's `write_file` and yields one element per line. -/
def jsToFileVec (items : List Item) : List Str :=
  splitOnChar '\n' (formatTokens (writeFileTokens items) 0)

/-! ### Order lemmas for the embedded `BTreeMap` / `BTreeSet` comparisons -/

theorem strLtb_irrefl (a : Str) : strLtb a a = false := by
  induction a with
  | nil => rfl
  | cons c cs ih => simp [strLtb, lt_irrefl, ih]

theorem strLtb_trans : ∀ {a b c : Str}, strLtb a b = true → strLtb b c = true →
    strLtb a c = true := by
  intro a
  induction a with
  | nil =>
    intro b c h1 h2
    cases b with
    | nil => simp [strLtb] at h1
    | cons y ys =>
      cases c with
      | nil => simp [strLtb] at h2
      | cons z zs => simp [strLtb]
  | cons x xs ih =>
    intro b c h1 h2
    cases b with
    | nil => simp [strLtb] at h1
    | cons y ys =>
      cases c with
      | nil => simp [strLtb] at h2
      | cons z zs =>
        by_cases hxy : x < y
        · by_cases hyz : y < z
          · simp [strLtb, lt_trans hxy hyz]
          · by_cases hyz2 : y = z
            · subst hyz2; simp [strLtb, hxy]
            · simp [strLtb, hyz, hyz2] at h2
        · by_cases hxy2 : x = y
          · subst hxy2
            have h1a : strLtb xs ys = true := by simpa [strLtb, hxy] using h1
            by_cases hxz : x < z
            · simp [strLtb, hxz]
            · by_cases hxz2 : x = z
              · subst hxz2
                have h2a : strLtb ys zs = true := by simpa [strLtb, hxz] using h2
                simp [strLtb, hxz, ih h1a h2a]
              · simp [strLtb, hxz, hxz2] at h2
          · simp [strLtb, hxy, hxy2] at h1

theorem strLtb_conn : ∀ {a b : Str}, strLtb a b = false → a ≠ b → strLtb b a = true := by
  intro a
  induction a with
  | nil =>
    intro b h1 h2
    cases b with
    | nil => exact absurd rfl h2
    | cons y ys => simp [strLtb] at h1
  | cons x xs ih =>
    intro b h1 h2
    cases b with
    | nil => simp [strLtb]
    | cons y ys =>
      by_cases hxy : x < y
      · simp [strLtb, hxy] at h1
      · by_cases hxy2 : x = y
        · subst hxy2
          have h1a : strLtb xs ys = false := by simpa [strLtb, hxy] using h1
          have h2a : xs ≠ ys := fun he => h2 (by rw [he])
          simp [strLtb, lt_irrefl, ih h1a h2a]
        · have hyx : y < x := lt_of_le_of_ne (le_of_not_lt hxy) (Ne.symm hxy2)
          simp [strLtb, hyx]

theorem pairLtb_irrefl (p : Str × Str) : pairLtb p p = false := by
  simp [pairLtb, strLtb_irrefl]

theorem pairLtb_trans {p q r : Str × Str} (h1 : pairLtb p q = true)
    (h2 : pairLtb q r = true) : pairLtb p r = true := by
  unfold pairLtb at h1 h2 ⊢
  by_cases e1 : p.1 = q.1 <;> by_cases e2 : q.1 = r.1
  · have e3 : p.1 = r.1 := e1.trans e2
    simp only [e1, e2, if_pos rfl] at h1 h2
    simp only [e3, if_pos rfl]
    exact strLtb_trans h1 h2
  · have e3 : p.1 ≠ r.1 := by rw [e1]; exact e2
    simp only [e1, if_pos rfl] at h1
    simp only [if_neg e2] at h2
    simp only [if_neg e3]
    rwa [e1]
  · have e3 : p.1 ≠ r.1 := by rw [← e2]; exact e1
    simp only [if_neg e1] at h1
    simp only [e2, if_pos rfl] at h2
    simp only [if_neg e3]
    rwa [← e2]
  · by_cases e3 : p.1 = r.1
    · exfalso
      simp only [if_neg e1] at h1
      simp only [if_neg e2] at h2
      rw [← e3] at h2
      have := strLtb_trans h1 h2
      simp [strLtb_irrefl] at this
    · simp only [if_neg e1] at h1
      simp only [if_neg e2] at h2
      simp only [if_neg e3]
      exact strLtb_trans h1 h2

theorem pairLtb_conn {p q : Str × Str} (h1 : pairLtb p q = false) (h2 : p ≠ q) :
    pairLtb q p = true := by
  unfold pairLtb at h1 ⊢
  by_cases e1 : p.1 = q.1
  · have h2a : p.2 ≠ q.2 := by
      intro he
      exact h2 (Prod.ext e1 he)
    simp only [e1, if_pos rfl] at h1
    simp only [e1.symm, if_pos rfl]
    exact strLtb_conn h1 h2a
  · simp only [if_neg e1] at h1
    simp only [if_neg (Ne.symm e1)]
    exact strLtb_conn h1 e1

/-! ### Lemmas about the wildcard `BTreeSet` insertion -/

theorem mem_insertWildcard {s : List (Str × Str)} {p x : Str × Str} :
    x ∈ insertWildcard s p ↔ x = p ∨ x ∈ s := by
  induction s with
  | nil => simp [insertWildcard]
  | cons q rest ih =>
    unfold insertWildcard
    by_cases h1 : pairLtb p q = true
    · rw [if_pos h1]
      simp
    · rw [if_neg h1]
      by_cases h2 : p = q
      · rw [if_pos h2]
        subst h2
        simp
      · rw [if_neg h2]
        simp only [List.mem_cons, ih]
        tauto

theorem pairwise_insertWildcard {s : List (Str × Str)} {p : Str × Str}
    (hs : s.Pairwise (fun a b => pairLtb a b = true)) :
    (insertWildcard s p).Pairwise (fun a b => pairLtb a b = true) := by
  induction s with
  | nil => simp [insertWildcard]
  | cons q rest ih =>
    rcases List.pairwise_cons.mp hs with ⟨hq, hrest⟩
    unfold insertWildcard
    by_cases h1 : pairLtb p q = true
    · simp only [h1, if_true]
      refine List.pairwise_cons.mpr ⟨?_, hs⟩
      intro x hx
      rcases List.mem_cons.mp hx with rfl | hx2
      · exact h1
      · exact pairLtb_trans h1 (hq x hx2)
    · by_cases h2 : p = q
      · rw [if_neg h1, if_pos h2]
        exact hs
      · rw [if_neg h1, if_neg h2]
        refine List.pairwise_cons.mpr ⟨?_, ih hrest⟩
        intro x hx
        rcases mem_insertWildcard.mp hx with rfl | hx2
        · exact pairLtb_conn (Bool.eq_false_iff.mpr h1) h2
        · exact hq x hx2

theorem insertWildcard_idem (s : List (Str × Str)) (p : Str × Str) :
    insertWildcard (insertWildcard s p) p = insertWildcard s p := by
  induction s with
  | nil => simp [insertWildcard, pairLtb_irrefl]
  | cons q rest ih =>
    by_cases h1 : pairLtb p q = true
    · simp [insertWildcard, h1, pairLtb_irrefl]
    · by_cases h2 : p = q
      · subst h2
        simp [insertWildcard, h1]
      · simp [insertWildcard, h1, h2, ih]

/-! ### Lemmas about the named-import `BTreeMap` insertion -/

/-- The module keys of the embedded named-import map. -/
def keysOf (m : List (Str × List Str)) : List Str := m.map Prod.fst

@[simp] theorem keysOf_nil : keysOf [] = [] := rfl

@[simp] theorem keysOf_cons (kv : Str × List Str) (rest : List (Str × List Str)) :
    keysOf (kv :: rest) = kv.1 :: keysOf rest := rfl

/-- The names recorded for module key `k` in the embedded named-import map. -/
def valuesOf : List (Str × List Str) → Str → List Str
  | [], _ => []
  | (k, vs) :: rest, k2 => if k2 = k then vs else valuesOf rest k2

theorem mem_keys_insertNamed {acc : List (Str × List Str)} {m n x : Str} :
    x ∈ keysOf (insertNamed acc m n) ↔ x = m ∨ x ∈ keysOf acc := by
  induction acc with
  | nil => simp [insertNamed]
  | cons kv rest ih =>
    obtain ⟨k, vs⟩ := kv
    unfold insertNamed
    by_cases h1 : strLtb m k = true
    · rw [if_pos h1]
      simp
    · rw [if_neg h1]
      by_cases h2 : m = k
      · rw [if_pos h2]
        subst h2
        simp
      · rw [if_neg h2]
        simp only [keysOf_cons, List.mem_cons, ih]
        tauto

theorem pairwise_keys_insertNamed {acc : List (Str × List Str)} {m n : Str}
    (hs : (keysOf acc).Pairwise (fun a b => strLtb a b = true)) :
    (keysOf (insertNamed acc m n)).Pairwise (fun a b => strLtb a b = true) := by
  induction acc with
  | nil => simp [insertNamed]
  | cons kv rest ih =>
    obtain ⟨k, vs⟩ := kv
    have hs2 : (k :: keysOf rest).Pairwise (fun a b => strLtb a b = true) := by
      simpa using hs
    rcases List.pairwise_cons.mp hs2 with ⟨hk, hrest⟩
    unfold insertNamed
    by_cases h1 : strLtb m k = true
    · rw [if_pos h1]
      refine List.pairwise_cons.mpr ⟨?_, hs2⟩
      intro x hx
      rcases List.mem_cons.mp hx with rfl | hx2
      · exact h1
      · exact strLtb_trans h1 (hk x hx2)
    · rw [if_neg h1]
      by_cases h2 : m = k
      · rw [if_pos h2]
        exact hs2
      · rw [if_neg h2]
        refine List.pairwise_cons.mpr ?_
        refine ⟨?_, ih hrest⟩
        intro x hx
        rcases mem_keys_insertNamed.mp hx with rfl | hx2
        · exact strLtb_conn (Bool.eq_false_iff.mpr h1) h2
        · exact hk x hx2

theorem valuesOf_of_not_mem {acc : List (Str × List Str)} {k : Str}
    (h : k ∉ keysOf acc) : valuesOf acc k = [] := by
  induction acc with
  | nil => rfl
  | cons kv rest ih =>
    obtain ⟨k0, vs⟩ := kv
    simp only [keysOf_cons, List.mem_cons, not_or] at h
    simp [valuesOf, h.1, ih h.2]

theorem valuesOf_insertNamed {acc : List (Str × List Str)}
    (hs : (keysOf acc).Pairwise (fun a b => strLtb a b = true)) (m n k : Str) :
    valuesOf (insertNamed acc m n) k =
      if k = m then valuesOf acc m ++ [n] else valuesOf acc k := by
  induction acc with
  | nil =>
    by_cases h : k = m <;> simp [insertNamed, valuesOf, h]
  | cons kv rest ih =>
    obtain ⟨k0, vs⟩ := kv
    have hs2 : (k0 :: keysOf rest).Pairwise (fun a b => strLtb a b = true) := by
      simpa using hs
    rcases List.pairwise_cons.mp hs2 with ⟨hk0, hrest⟩
    unfold insertNamed
    by_cases h1 : strLtb m k0 = true
    · rw [if_pos h1]
      have hm_ne : m ≠ k0 := by
        intro he
        subst he
        simp [strLtb_irrefl] at h1
      have hm_notin : m ∉ keysOf rest := by
        intro hin
        have h2 := strLtb_trans h1 (hk0 m hin)
        simp [strLtb_irrefl] at h2
      by_cases h2 : k = m
      · rw [if_pos h2]
        subst h2
        simp [valuesOf, hm_ne, valuesOf_of_not_mem hm_notin]
      · rw [if_neg h2]
        simp [valuesOf, h2]
    · rw [if_neg h1]
      by_cases h2 : m = k0
      · rw [if_pos h2]
        subst h2
        by_cases h3 : k = m
        · rw [if_pos h3]
          subst h3
          simp [valuesOf]
        · rw [if_neg h3]
          simp [valuesOf, h3]
      · rw [if_neg h2]
        by_cases h3 : k = k0
        · subst h3
          have hkm : k ≠ m := fun he => h2 he.symm
          rw [if_neg hkm]
          simp [valuesOf]
        · simp [valuesOf, h3, ih hrest, h2]

/-! ### Invariants of the import collection fold -/

/-- The named imports of module `k` occurring in a walked import list, in walk
order: exactly the names of walked entries with module `k` and no alias. -/
def namesFor (l : List JsType) (k : Str) : List Str :=
  l.filterMap fun t =>
    match t.module, t.aliasName with
    | some m, none => if m = k then some t.name else none
    | _, _ => none

theorem collectStep_keys_pairwise {acc : List (Str × List Str) × List (Str × Str)}
    {t : JsType} (h : (keysOf acc.1).Pairwise (fun a b => strLtb a b = true)) :
    (keysOf (collectStep acc t).1).Pairwise (fun a b => strLtb a b = true) := by
  rcases t with ⟨mo, nm, al⟩
  cases mo with
  | none => cases al <;> simpa [collectStep] using h
  | some m =>
    cases al with
    | none => simpa [collectStep] using pairwise_keys_insertNamed h
    | some a => simpa [collectStep] using h

theorem collectStep_wild_pairwise {acc : List (Str × List Str) × List (Str × Str)}
    {t : JsType} (h : acc.2.Pairwise (fun a b => pairLtb a b = true)) :
    ((collectStep acc t).2).Pairwise (fun a b => pairLtb a b = true) := by
  rcases t with ⟨mo, nm, al⟩
  cases mo with
  | none => cases al <;> simpa [collectStep] using h
  | some m =>
    cases al with
    | none => simpa [collectStep] using h
    | some a => simpa [collectStep] using pairwise_insertWildcard h

theorem collect_foldl_pairwise (l : List JsType) :
    ∀ acc, (keysOf acc.1).Pairwise (fun a b => strLtb a b = true) →
      acc.2.Pairwise (fun a b => pairLtb a b = true) →
      (keysOf (l.foldl collectStep acc).1).Pairwise (fun a b => strLtb a b = true)
      ∧ ((l.foldl collectStep acc).2).Pairwise (fun a b => pairLtb a b = true) := by
  induction l with
  | nil => exact fun acc h1 h2 => ⟨h1, h2⟩
  | cons t rest ih =>
    intro acc h1 h2
    rw [List.foldl_cons]
    exact ih _ (collectStep_keys_pairwise h1) (collectStep_wild_pairwise h2)

theorem collect_foldl_values (l : List JsType) :
    ∀ acc k, (keysOf acc.1).Pairwise (fun a b => strLtb a b = true) →
      valuesOf (l.foldl collectStep acc).1 k = valuesOf acc.1 k ++ namesFor l k := by
  induction l with
  | nil =>
    intro acc k h
    simp [namesFor]
  | cons t rest ih =>
    intro acc k h
    rw [List.foldl_cons, ih _ k (collectStep_keys_pairwise h)]
    rcases t with ⟨mo, nm, al⟩
    cases mo with
    | none => cases al <;> simp [collectStep, namesFor, List.filterMap_cons]
    | some m =>
      cases al with
      | none =>
        rw [show (collectStep acc ⟨some m, nm, none⟩).1 = insertNamed acc.1 m nm from rfl]
        rw [valuesOf_insertNamed h m nm k]
        by_cases hkm : k = m
        · subst hkm
          simp [namesFor, List.filterMap_cons]
        · simp [hkm, namesFor, List.filterMap_cons, Ne.symm hkm]
      | some a => simp [collectStep, namesFor, List.filterMap_cons]

/-! ### Helper lemmas for the import claims -/

theorem collectStep_wild (acc : List (Str × List Str) × List (Str × Str))
    {w : JsType} {m a : Str} (hm : w.module = some m) (ha : w.aliasName = some a) :
    collectStep acc w = (acc.1, insertWildcard acc.2 (m, a)) := by
  rcases w with ⟨mo, nm, al⟩
  simp only at hm ha
  subst hm
  subst ha
  rfl

theorem collect_foldl_wild_dup (l : List JsType) {w : JsType} {m a : Str}
    (hm : w.module = some m) (ha : w.aliasName = some a) :
    (l ++ [w, w]).foldl collectStep ([], []) = (l ++ [w]).foldl collectStep ([], []) := by
  rw [List.foldl_append, List.foldl_append]
  generalize l.foldl collectStep ([], []) = acc
  simp only [List.foldl_cons, List.foldl_nil, collectStep_wild _ hm ha]
  rw [insertWildcard_idem]

theorem collect_no_module {l : List JsType} (h : ∀ t ∈ l, t.module = none) :
    ∀ acc, l.foldl collectStep acc = acc := by
  induction l with
  | nil => intro acc; rfl
  | cons t rest ih =>
    intro acc
    have ht : t.module = none := h t (List.mem_cons_self t rest)
    have hstep : collectStep acc t = acc := by
      rcases t with ⟨mo, nm, al⟩
      simp only at ht
      subst ht
      cases al <;> rfl
    rw [List.foldl_cons, hstep]
    exact ih (fun u hu => h u (List.mem_cons_of_mem t hu)) acc

theorem foldl_escape (l : Str) (init : Str) :
    l.foldl (fun acc c => acc ++ jsEscapeChar c) init = init ++ (l.map jsEscapeChar).flatten := by
  induction l generalizing init with
  | nil => simp
  | cons c cs ih => simp [List.foldl_cons, ih, List.append_assoc]

/-! ### The template escape forms of the quote parser -/

/-- Modelled from the spec (section 4.G.2 sigil dispatch table; the quote
parser module is not among the given sources): the four escape forms and the
item each one appends.  `##` appends a literal `#`; `#<space>`, `#<push>` and
`#<line>` append the corresponding whitespace intents (they correspond to
`Tokens::space`, `Tokens::push` and `Tokens::line` per the doc comments of
`src/genco-macros/src/lib.rs` lines 96-107). -/
inductive Escape where
  | hash
  | space
  | push
  | line
  deriving DecidableEq, Repr

/-- Modelled from the spec (section 4.G.2): the item appended for each escape. -/
def escapeItem : Escape → Item
  | .hash => Item.literal (str "#")
  | .space => Item.space
  | .push => Item.push
  | .line => Item.line

/-! ### The macro entry points of `src/genco-macros/src/lib.rs` -/

/-- A statement of the generated code emitted by the `quote` / `quote_in`
proc-macros (`src/genco-macros/src/lib.rs` lines 431-440 and 504-506):
constructing a fresh stream, taking a mutable reference, running the parsed
encoder plan against a receiver, or a nested block. -/
inductive GenStmt where
  | letNewTokens (x : Str)
  | letMutRef (x y : Str)
  | runPlan (x : Str) (plan : List Item)
  | scope (body : List GenStmt)

/-- Variable lookup in the evaluation environment of generated code; the most
recent binding shadows earlier ones. -/
def lookupVar (env : List (Str × Nat)) (x : Str) : Option Nat :=
  match env with
  | [] => none
  | (y, a) :: rest => if x = y then some a else lookupVar rest x

mutual

/-- Evaluation of one generated statement over a store of streams (addressed
by allocation index) and an environment binding variable names to addresses.
`letMutRef` binds the new name to the address of the referenced stream, so
writes through the reference mutate the referent, and a `scope` restores the
environment on exit.  Statements referring to unbound names (which the
emitted code never contains) leave the state unchanged. -/
def evalStmt : GenStmt → List (List Item) × List (Str × Nat) → List (List Item) × List (Str × Nat)
  | .letNewTokens x, (st, env) => (st ++ [[]], (x, st.length) :: env)
  | .letMutRef x y, (st, env) =>
    match lookupVar env y with
    | some a => (st, (x, a) :: env)
    | none => (st, env)
  | .runPlan x p, (st, env) =>
    match lookupVar env x with
    | some a => (st.set a (st.getD a [] ++ p), env)
    | none => (st, env)
  | .scope body, (st, env) => ((evalStmts body (st, env)).1, env)

/-- Evaluation of a list of generated statements in order. -/
def evalStmts : List GenStmt → List (List Item) × List (Str × Nat) → List (List Item) × List (Str × Nat)
  | [], se => se
  | s :: rest, se => evalStmts rest (evalStmt s se)

end

mutual

/-- Number of fresh streams (`genco::Tokens::new()` calls) a generated
statement constructs. -/
def countStmt : GenStmt → Nat
  | .letNewTokens _ => 1
  | .letMutRef _ _ => 0
  | .runPlan _ _ => 0
  | .scope body => countStmts body

/-- Number of fresh streams a generated statement list constructs. -/
def countStmts : List GenStmt → Nat
  | [] => 0
  | s :: rest => countStmt s + countStmts rest

end

/-- A block of generated statements whose trailing expression is a variable,
the shape of the `quote!` expansion. -/
structure BlockExpr where
  stmts : List GenStmt
  value : Str

/-- From `src/genco-macros/src/lib.rs` line 420: the receiver identifier
`__genco_macros_toks`. -/
def receiverName : Str := str "__genco_macros_toks"

/-- From `src/genco-macros/src/lib.rs` lines 431-440: the expansion of
`quote!` is a block that binds the receiver to a fresh `genco::Tokens::new()`,
runs the parsed encoder plan inside an inner block against a shadowing
`&mut` rebinding of the receiver, and ends with the receiver as the block's
value. -/
def quoteExpansion (plan : List Item) : BlockExpr :=
  ⟨[GenStmt.letNewTokens receiverName,
    GenStmt.scope [GenStmt.letMutRef receiverName receiverName,
                   GenStmt.runPlan receiverName plan]],
   receiverName⟩

/-- From `src/genco-macros/src/lib.rs` lines 504-506: the expansion of
`quote_in!` is a block holding only the parsed encoder plan.  Modelled from
the spec (section 4.G.5; the `quote_in` parser module is not among the given
sources): the plan's receiver is the caller-supplied destination expression,
and no new stream is constructed. -/
def quoteInExpansion (dest : Str) (plan : List Item) : List GenStmt :=
  [GenStmt.runPlan dest plan]

/-- Evaluate a block with a trailing variable expression; the result value is
the stream the trailing variable denotes after the statements ran. -/
def evalBlockExpr (b : BlockExpr) (se : List (List Item) × List (Str × Nat)) :
    (List (List Item) × List (Str × Nat)) × Option (List Item) :=
  let se2 := evalStmts b.stmts se
  (se2, match lookupVar se2.2 b.value with
        | some a => se2.1[a]?
        | none => none)

/-- From `src/genco-macros/src/lib.rs` lines 418-443: the source span and
message of a parse failure reported by the template parser. -/
structure SrcSpan where
  lo : Nat
  hi : Nat
  deriving DecidableEq, Repr

/-- A parse error of the template parser (spec section 7 failure kind 1),
carrying its source span and message. -/
structure ParseFail where
  span : SrcSpan
  msg : Str
  deriving DecidableEq, Repr

/-- The possible outputs of the proc-macro entry points: a `quote!` block
expansion, a `quote_in!` statement expansion, or a `compile_error!` carrying
the parse error's span and message (`syn::Error::to_compile_error`). -/
inductive ExpandResult where
  | expanded (b : BlockExpr)
  | expandedIn (stmts : List GenStmt)
  | compileFail (span : SrcSpan) (msg : Str)

/-- From `src/genco-macros/src/lib.rs` lines 419-443: `quote` parses the
input; on success it emits the block expansion around the parsed plan, and on
failure it returns the error's `to_compile_error()` token stream (lines
426-429), which carries the error's span and message. -/
def quoteEmit (r : Except ParseFail (List Item)) : ExpandResult :=
  match r with
  | .ok output => .expanded (quoteExpansion output)
  | .error e => .compileFail e.span e.msg

/-- From `src/genco-macros/src/lib.rs` lines 492-509: `quote_in` parses the
input; on success it emits the plan as a block against the destination, and
on failure it returns the error's `to_compile_error()` token stream (lines
499-502). -/
def quoteInEmit (dest : Str) (r : Except ParseFail (List Item)) : ExpandResult :=
  match r with
  | .ok output => .expandedIn (quoteInExpansion dest output)
  | .error e => .compileFail e.span e.msg

/-! ### List helpers for the expansion semantics -/

theorem getD_concat {α : Type} (l : List α) (x y : α) : (l ++ [x]).getD l.length y = x := by
  induction l with
  | nil => rfl
  | cons a rest ih => simp [ih]

theorem set_concat {α : Type} (l : List α) (x y : α) : (l ++ [x]).set l.length y = l ++ [y] := by
  induction l with
  | nil => rfl
  | cons a rest ih => simp [List.set, ih]

theorem getq_concat {α : Type} (l : List α) (x : α) : (l ++ [x])[l.length]? = some x := by
  induction l with
  | nil => rfl
  | cons a rest ih => simp [ih]

/-! ### Concrete streams used by the claims -/

/-- The named import `("collections", "vec")` of the `imported` doc test. -/
def vecT : JsType := imported (str "collections") (str "vec")

/-- The aliased import `("collections", "vec").alias("list")`. -/
def listT : JsType := withAlias (imported (str "collections") (str "vec")) (str "list")

/-- A stream whose only item is a single named import. -/
def namedOnlyStream : List Item := [Item.lang vecT]

/-- Stream with one occurrence each of the named and the aliased import. -/
def c2StreamA : List Item := [Item.lang vecT, Item.lang listT]

/-- Stream with the named import duplicated; same underlying import set as
`c2StreamA`. -/
def c2StreamB : List Item := [Item.lang vecT, Item.lang vecT, Item.lang listT]

/-- Walked imports with the names of module `m` out of symbol order. -/
def c3Walked : List JsType :=
  [⟨some (str "m"), str "b", none⟩, ⟨some (str "m"), str "a", none⟩,
   ⟨some (str "m"), str "x", some (str "w")⟩]

/-- The doc-test stream: named import, push, aliased import (once). -/
def c4Once : List Item := [Item.lang vecT, Item.push, Item.lang listT]

/-- The claim's stream: the aliased import appears twice. -/
def c4Twice : List Item :=
  [Item.lang vecT, Item.push, Item.lang listT, Item.push, Item.lang listT]

/-- The five-line output stated by claim C4. -/
def c4Expected : List Str :=
  [str "import \x7bvec\x7d from \"collections.js\";",
   str "import * as list from \"collections.js\";",
   str "",
   str "vec",
   str "list.vec"]

/-- A stream whose language items are all module-less, one of them aliased. -/
def c10Stream : List Item :=
  [Item.lang (localType (str "MyType")), Item.lang (withAlias (localType (str "w")) (str "x"))]

/-! ### Claim theorems -/

/-- Claim C1: the claim (and the spec's stated intent) requires the import
preamble whenever the stream contains at least one import, named or wildcard.
The code suppresses it when no wildcard import exists: this theorem evaluates
the code at the failing input, a stream whose single item is the named import
`("collections", "vec")`.  One import is walked, yet `JavaScript::imports`
returns `None` and `write_file` emits only the body line `vec`, with no
preamble and no blank line. -/
theorem c1_named_import_preamble_suppressed :
    walkImports namedOnlyStream = [imported (str "collections") (str "vec")]
    ∧ jsImports namedOnlyStream = none
    ∧ jsToFileVec namedOnlyStream = [str "vec"] :=
  ⟨rfl, rfl, rfl⟩

/-- Claim C2 counterexample: the streams `c2StreamA` and `c2StreamB` walk the
same underlying set of imports (the named import is merely duplicated), yet
`JavaScript::imports` produces different preambles, because a duplicated
named entry is repeated inside its module's line rather than collapsed. -/
theorem c2_import_set_counterexample :
    (∀ t : JsType, t ∈ walkImports c2StreamA ↔ t ∈ walkImports c2StreamB)
    ∧ jsImports c2StreamA ≠ jsImports c2StreamB := by
  constructor
  · intro t
    show t ∈ [vecT, listT] ↔ t ∈ [vecT, vecT, listT]
    simp only [List.mem_cons, List.not_mem_nil, or_false]
    tauto
  · decide

/-- Claim C2 (amended): the preamble is a deterministic function of the
walked import sequence; duplicate wildcard imports are collapsed to a single
preamble entry (appending the same wildcard import twice renders the same
preamble as appending it once), but duplicate named imports are not
collapsed — each occurrence repeats the name inside its module's line. -/
theorem c2_wildcard_dup_collapsed (ts : List Item) (w : JsType) (m a : Str)
    (hm : w.module = some m) (ha : w.aliasName = some a) :
    jsImports (ts ++ [Item.lang w, Item.lang w]) = jsImports (ts ++ [Item.lang w]) := by
  have hwalk2 : walkImports (ts ++ [Item.lang w, Item.lang w]) = walkImports ts ++ [w, w] := by
    unfold walkImports
    rw [List.filterMap_append]
    rfl
  have hwalk1 : walkImports (ts ++ [Item.lang w]) = walkImports ts ++ [w] := by
    unfold walkImports
    rw [List.filterMap_append]
    rfl
  unfold jsImports jsImportsOf collectImports
  rw [hwalk2, hwalk1, collect_foldl_wild_dup _ hm ha]

/-- Claim C2 amended witness: the collapse theorem applied to the concrete
aliased import `("collections", "vec").alias("list")`. -/
theorem c2_wildcard_dup_collapsed_witness :
    listT.module = some (str "collections")
    ∧ listT.aliasName = some (str "list")
    ∧ jsImports ([Item.lang vecT] ++ [Item.lang listT, Item.lang listT])
        = jsImports ([Item.lang vecT] ++ [Item.lang listT]) :=
  ⟨rfl, rfl,
    c2_wildcard_dup_collapsed [Item.lang vecT] listT (str "collections") (str "list") rfl rfl⟩

/-- Claim C3 counterexample: for the walked imports `(m, b)`, `(m, a)` and
`(m, x as w)` the preamble is emitted (the wildcard set is non-empty) and
module `m`'s named line lists the names in walk order `b, a`, which is not
sorted by symbol even though `a` precedes `b` in the symbol order. -/
theorem c3_names_unsorted_counterexample :
    valuesOf (collectImports c3Walked).1 (str "m") = [str "b", str "a"]
    ∧ (collectImports c3Walked).2 ≠ []
    ∧ ¬ List.Pairwise (fun a b => strLtb a b = true)
        (valuesOf (collectImports c3Walked).1 (str "m"))
    ∧ strLtb (str "a") (str "b") = true
    ∧ jsImportsOf c3Walked = some
        ([Item.literal (str "import \x7b"), Item.literal (str "b"), Item.literal (str ", "),
          Item.literal (str "a"), Item.literal (str "\x7d from "), Item.quotedStr (str "m.js"),
          Item.literal (str ";"), Item.push]
        ++ [Item.literal (str "import * as "), Item.literal (str "w"), Item.literal (str " from "),
            Item.quotedStr (str "m.js"), Item.literal (str ";"), Item.push]) := by
  refine ⟨rfl, by decide, by decide, by decide, rfl⟩

/-- Claim C3 (amended): the import preamble is deterministically ordered as
follows — the per-module named-import lines are sorted by module name and the
wildcard lines are sorted by the pair (module, alias), but the names within
one module's line appear in walk order (duplicates kept), not sorted by
symbol. -/
theorem c3_import_order_amended (l : List JsType) :
    (keysOf (collectImports l).1).Pairwise (fun a b => strLtb a b = true)
    ∧ ((collectImports l).2).Pairwise (fun a b => pairLtb a b = true)
    ∧ ∀ k, valuesOf (collectImports l).1 k = namesFor l k := by
  unfold collectImports
  have h := collect_foldl_pairwise l ([], []) List.Pairwise.nil List.Pairwise.nil
  refine ⟨h.1, h.2, fun k => ?_⟩
  have h2 := collect_foldl_values l ([], []) k List.Pairwise.nil
  simpa using h2

/-- Claim C4 counterexample: with the aliased import appearing twice in the
stream, the rendered file gains a third body line `list.vec`, so the output
is not the five-line result stated by the claim. -/
theorem c4_duplicate_alias_counterexample :
    walkImports c4Twice = [vecT, listT, listT]
    ∧ jsToFileVec c4Twice ≠ c4Expected := by
  refine ⟨rfl, by decide⟩

/-- Claim C4 (amended): with the aliased import appearing once the file
renders exactly as the claim states (preamble listing each import once, one
blank line, then body lines `vec` and `list.vec`); with the aliased import
appearing twice the preamble is unchanged (the wildcard duplicate collapses)
but the body carries one extra `list.vec` line. -/
theorem c4_file_render_amended :
    jsToFileVec c4Once = c4Expected
    ∧ jsToFileVec c4Twice = c4Expected ++ [str "list.vec"] :=
  ⟨rfl, rfl⟩

/-- Claim C5: `##` appends a single literal `#`; after text on the current
line, `#<space>` renders as exactly one space, `#<push>` as one newline plus
the indentation, and `#<line>` as two newlines plus the indentation; and the
template `foo#<push>bar#<line>baz#<space>biz` renders to
`"foo\nbar\n\nbaz biz"`. -/
theorem c5_escape_render (a b : Str) (L : Nat) (ha : a ≠ []) (hb : b ≠ []) :
    escapeItem Escape.hash = Item.literal (str "#")
    ∧ formatTokens [Item.literal a, escapeItem Escape.space, Item.literal b] L
        = a ++ str " " ++ b
    ∧ formatTokens [Item.literal a, escapeItem Escape.push, Item.literal b] L
        = a ++ str "\n" ++ indentStr L ++ b
    ∧ formatTokens [Item.literal a, escapeItem Escape.line, Item.literal b] L
        = a ++ str "\n" ++ str "\n" ++ indentStr L ++ b
    ∧ jsToString [Item.literal (str "foo"), escapeItem Escape.push, Item.literal (str "bar"),
        escapeItem Escape.line, Item.literal (str "baz"), escapeItem Escape.space,
        Item.literal (str "biz")] = str "foo\nbar\n\nbaz biz" := by
  have hlen : 0 < a.length := List.length_pos.mpr ha
  refine ⟨rfl, ?_, ?_, ?_, by decide⟩
  · simp [formatTokens, escapeItem, runItem, writeText, pendUp, Pend.rank, ha, hb, hlen,
      List.append_assoc]
  · simp [formatTokens, escapeItem, runItem, writeText, pendUp, Pend.rank, ha, hb,
      List.append_assoc]
  · simp [formatTokens, escapeItem, runItem, writeText, pendUp, Pend.rank, ha, hb, hlen,
      List.append_assoc]

/-- Claim C5 witness: the escape-rendering theorem at the concrete strings
`x`, `y` and indent level 1. -/
theorem c5_escape_render_witness :
    (str "x" ≠ ([] : Str) ∧ str "y" ≠ ([] : Str))
    ∧ (escapeItem Escape.hash = Item.literal (str "#")
    ∧ formatTokens [Item.literal (str "x"), escapeItem Escape.space, Item.literal (str "y")] 1
        = str "x" ++ str " " ++ str "y"
    ∧ formatTokens [Item.literal (str "x"), escapeItem Escape.push, Item.literal (str "y")] 1
        = str "x" ++ str "\n" ++ indentStr 1 ++ str "y"
    ∧ formatTokens [Item.literal (str "x"), escapeItem Escape.line, Item.literal (str "y")] 1
        = str "x" ++ str "\n" ++ str "\n" ++ indentStr 1 ++ str "y"
    ∧ jsToString [Item.literal (str "foo"), escapeItem Escape.push, Item.literal (str "bar"),
        escapeItem Escape.line, Item.literal (str "baz"), escapeItem Escape.space,
        Item.literal (str "biz")] = str "foo\nbar\n\nbaz biz") :=
  ⟨⟨by decide, by decide⟩, c5_escape_render (str "x") (str "y") 1 (by decide) (by decide)⟩

/-- Claim C6: evaluating the `quote!` expansion from any starting store and
environment allocates exactly one fresh stream, runs the parsed encoder plan
against it through the mutable-reference rebinding, and returns that stream
— holding exactly the plan's tokens — as the block's value; the `quote_in!`
expansion runs the plan against the caller-supplied destination, appending to
it, and constructs no new stream. -/
theorem c6_expansion_semantics (plan : List Item) (st : List (List Item))
    (env : List (Str × Nat)) (x : Str) (d : List Item) :
    (evalBlockExpr (quoteExpansion plan) (st, env)).2 = some plan
    ∧ ((evalBlockExpr (quoteExpansion plan) (st, env)).1).1 = st ++ [plan]
    ∧ evalStmts (quoteInExpansion x plan) ([d], [(x, 0)]) = ([d ++ plan], [(x, 0)])
    ∧ countStmts (quoteExpansion plan).stmts = 1
    ∧ countStmts (quoteInExpansion x plan) = 0 := by
  have hstep : evalStmts [GenStmt.letNewTokens receiverName,
      GenStmt.scope [GenStmt.letMutRef receiverName receiverName,
        GenStmt.runPlan receiverName plan]] (st, env)
      = (st ++ [plan], (receiverName, st.length) :: env) := by
    simp [evalStmts, evalStmt, lookupVar, getD_concat, set_concat]
  refine ⟨?_, ?_, ?_, ?_, ?_⟩
  · simp [evalBlockExpr, quoteExpansion, hstep, lookupVar, getq_concat]
  · simp [evalBlockExpr, quoteExpansion, hstep]
  · simp [quoteInExpansion, evalStmts, evalStmt, lookupVar]
  · rfl
  · rfl

/-- Claim C7: whenever parsing the template fails, both macro entry points
expand to a compile error carrying the parse error's source span and message,
and no encoder-plan expansion is produced. -/
theorem c7_parse_failure_aborts (e : ParseFail) (x : Str) :
    quoteEmit (Except.error e) = ExpandResult.compileFail e.span e.msg
    ∧ quoteInEmit x (Except.error e) = ExpandResult.compileFail e.span e.msg
    ∧ (∀ b, quoteEmit (Except.error e) ≠ ExpandResult.expanded b)
    ∧ (∀ s, quoteInEmit x (Except.error e) ≠ ExpandResult.expandedIn s) := by
  refine ⟨rfl, rfl, ?_, ?_⟩
  · intro b h
    simp [quoteEmit] at h
  · intro s h
    simp [quoteInEmit] at h

/-- Claim C8: `quote_string` writes a double quote, then the input with each
character replaced by its escape (in particular `"` becomes `\"`, `\` becomes
`\\`, and a newline becomes `\n`), then a closing double quote; the input
`hello \n world` (with a real newline) renders as `"hello \\n world"`. -/
theorem c8_quote_string_escapes (s : Str) :
    jsQuoteString s = str "\"" ++ (s.map jsEscapeChar).flatten ++ str "\""
    ∧ jsEscapeChar '"' = str "\\\""
    ∧ jsEscapeChar '\\' = str "\\\\"
    ∧ jsEscapeChar '\n' = str "\\n"
    ∧ jsQuoteString (str "hello \n world") = str "\"hello \\n world\"" := by
  refine ⟨?_, by decide, by decide, by decide, by decide⟩
  unfold jsQuoteString
  rw [foldl_escape]

/-- Claim C9: `quote_string` escapes exactly the eight characters tab,
U+0007, newline, carriage return, U+0014, single quote, double quote and
backslash; U+0007 is written `\b` and U+0014 is written `\f`, while the
actual backspace U+0008 and form feed U+000C pass through unescaped, as does
every character outside the eight. -/
theorem c9_escape_char_exact :
    jsEscapeChar '\t' = str "\\t"
    ∧ jsEscapeChar (Char.ofNat 7) = str "\\b"
    ∧ jsEscapeChar '\n' = str "\\n"
    ∧ jsEscapeChar '\r' = str "\\r"
    ∧ jsEscapeChar (Char.ofNat 20) = str "\\f"
    ∧ jsEscapeChar (Char.ofNat 39) = ['\\', Char.ofNat 39]
    ∧ jsEscapeChar '"' = str "\\\""
    ∧ jsEscapeChar '\\' = str "\\\\"
    ∧ jsEscapeChar (Char.ofNat 8) = [Char.ofNat 8]
    ∧ jsEscapeChar (Char.ofNat 12) = [Char.ofNat 12]
    ∧ ∀ c : Char,
        c ∉ ['\t', Char.ofNat 7, '\n', '\r', Char.ofNat 20, Char.ofNat 39, '"', '\\'] →
        jsEscapeChar c = [c] := by
  refine ⟨by decide, by decide, by decide, by decide, by decide, by decide, by decide, by decide,
    by decide, by decide, ?_⟩
  intro c hc
  simp only [List.mem_cons, List.not_mem_nil, or_false, not_or] at hc
  obtain ⟨h1, h2, h3, h4, h5, h6, h7, h8⟩ := hc
  simp [jsEscapeChar, h1, h2, h3, h4, h5, h6, h7, h8]

/-- Claim C9 witness: the pass-through clause applied at the concrete
character `z`. -/
theorem c9_escape_char_exact_witness :
    ('z' ∉ ['\t', Char.ofNat 7, '\n', '\r', Char.ofNat 20, Char.ofNat 39, '"', '\\'])
    ∧ jsEscapeChar 'z' = ['z'] :=
  ⟨by decide, c9_escape_char_exact.2.2.2.2.2.2.2.2.2.2 'z' (by decide)⟩

/-- Claim C10: every JavaScript Type reports itself as an import via
`as_import` (returning `Some`), yet a Type with no module — as produced by
`local`, with or without an alias — never contributes a line to the import
preamble: for a stream whose walked imports all lack a module, `imports`
returns `None` and `write_file` prepends nothing. -/
theorem c10_moduleless_no_preamble (ts : List Item)
    (h : ∀ t ∈ walkImports ts, t.module = none) :
    (∀ t : JsType, asImport t = some t)
    ∧ jsImports ts = none
    ∧ writeFileTokens ts = ts := by
  have hnone : jsImports ts = none := by
    unfold jsImports jsImportsOf collectImports
    rw [collect_no_module h ([], [])]
    rfl
  refine ⟨fun t => rfl, hnone, ?_⟩
  unfold writeFileTokens
  rw [hnone]

/-- Claim C10 witness: the theorem applied to a concrete stream holding a
plain local Type and an aliased module-less Type. -/
theorem c10_moduleless_no_preamble_witness :
    (∀ t ∈ walkImports c10Stream, t.module = none)
    ∧ ((∀ t : JsType, asImport t = some t)
       ∧ jsImports c10Stream = none
       ∧ writeFileTokens c10Stream = c10Stream) :=
  ⟨by decide, c10_moduleless_no_preamble c10Stream (by decide)⟩

end Genco
